import Mathlib

/-!
Verification of the create-mview progress tracker (`src/meta/src/barrier/progress.rs`)
and the hash-aggregation streaming operator (`src/stream/src/executor/hash_agg.rs`).

Rust `HashMap`s are embedded as association lists whose update operations
(`insertA`, `eraseA`) keep at most one binding per key.  Rust `u64`/`u32`/`usize`
values are embedded as `Nat` (the meta-side counters never wrap in the scenarios
the claims quantify over, and debug builds abort on overflow).  `f64` arithmetic
is embedded as exact rational arithmetic over `ℚ`.  A Rust panic (a failed
`unwrap`, a failed `assert`, an explicit `panic`, or a `todo` stub) is embedded
by returning `none`: a panicking call produces no successor state.
-/

namespace RW

/-- Lookup in an association list: the value of the first binding of key `k`. -/
def lookupA {β : Type} (k : Nat) : List (Nat × β) → Option β
  | [] => none
  | (k', v) :: rest => if k' = k then some v else lookupA k rest

/-- Remove every binding of key `k` (Rust `HashMap::remove`). -/
def eraseA {β : Type} (k : Nat) : List (Nat × β) → List (Nat × β)
  | [] => []
  | (k', v) :: rest => if k' = k then eraseA k rest else (k', v) :: eraseA k rest

/-- Insert a binding, replacing any previous binding of the key
(Rust `HashMap::insert`). -/
def insertA {β : Type} (k : Nat) (v : β) (l : List (Nat × β)) : List (Nat × β) :=
  (k, v) :: eraseA k l

/-- The keys of an association list are pairwise distinct. -/
def NodupKeysA {β : Type} (l : List (Nat × β)) : Prop :=
  (l.map Prod.fst).Nodup

theorem lookupA_nil {β : Type} {k : Nat} : lookupA (β := β) k [] = none := rfl

theorem lookupA_cons {β : Type} {k k' : Nat} {v : β} {rest : List (Nat × β)} :
    lookupA k ((k', v) :: rest) = if k' = k then some v else lookupA k rest := rfl

theorem eraseA_nil {β : Type} {k : Nat} : eraseA (β := β) k [] = [] := rfl

theorem eraseA_cons {β : Type} {k k' : Nat} {v : β} {rest : List (Nat × β)} :
    eraseA k ((k', v) :: rest) =
      if k' = k then eraseA k rest else (k', v) :: eraseA k rest := rfl

theorem lookupA_eq_some_mem {β : Type} {k : Nat} {v : β} :
    ∀ {l : List (Nat × β)}, lookupA k l = some v → (k, v) ∈ l := by
  intro l
  induction l with
  | nil => intro h; simp [lookupA] at h
  | cons p rest ih =>
    intro h
    obtain ⟨k', v'⟩ := p
    rw [lookupA_cons] at h
    by_cases hk : k' = k
    · rw [if_pos hk] at h
      cases h
      rw [hk]
      exact List.mem_cons_self _ _
    · rw [if_neg hk] at h
      exact List.mem_cons_of_mem _ (ih h)

theorem mem_eraseA {β : Type} {p : Nat × β} {k : Nat} :
    ∀ {l : List (Nat × β)}, p ∈ eraseA k l ↔ p ∈ l ∧ p.1 ≠ k := by
  intro l
  induction l with
  | nil => simp [eraseA]
  | cons q rest ih =>
    obtain ⟨k', v'⟩ := q
    rw [eraseA_cons]
    by_cases hk : k' = k
    · rw [if_pos hk, ih]
      constructor
      · rintro ⟨hm, hne⟩
        exact ⟨List.mem_cons_of_mem _ hm, hne⟩
      · rintro ⟨hm, hne⟩
        rcases List.mem_cons.mp hm with h | h
        · exfalso; apply hne; rw [h, ← hk]
        · exact ⟨h, hne⟩
    · constructor
      · intro hm
        rw [if_neg hk] at hm
        rcases List.mem_cons.mp hm with h | h
        · rw [h]; exact ⟨List.mem_cons_self _ _, hk⟩
        · obtain ⟨hm2, hne⟩ := ih.mp h
          exact ⟨List.mem_cons_of_mem _ hm2, hne⟩
      · rintro ⟨hm, hne⟩
        rw [if_neg hk]
        rcases List.mem_cons.mp hm with h | h
        · rw [h]; exact List.mem_cons_self _ _
        · exact List.mem_cons_of_mem _ (ih.mpr ⟨h, hne⟩)

theorem lookupA_eraseA_self {β : Type} {k : Nat} :
    ∀ {l : List (Nat × β)}, lookupA k (eraseA k l) = none := by
  intro l
  induction l with
  | nil => rfl
  | cons q rest ih =>
    obtain ⟨k', v'⟩ := q
    rw [eraseA_cons]
    by_cases hk : k' = k
    · rw [if_pos hk]; exact ih
    · rw [if_neg hk, lookupA_cons, if_neg hk]; exact ih

theorem lookupA_eraseA_ne {β : Type} {a k : Nat} (h : a ≠ k) :
    ∀ {l : List (Nat × β)}, lookupA a (eraseA k l) = lookupA a l := by
  intro l
  induction l with
  | nil => rfl
  | cons q rest ih =>
    obtain ⟨k', v'⟩ := q
    rw [eraseA_cons]
    by_cases hk : k' = k
    · rw [if_pos hk, ih, lookupA_cons, if_neg]
      intro hh
      exact h (hh ▸ hk ▸ rfl)
    · rw [if_neg hk, lookupA_cons, lookupA_cons]
      by_cases ha : k' = a
      · rw [if_pos ha, if_pos ha]
      · rw [if_neg ha, if_neg ha]; exact ih

theorem lookupA_insertA_self {β : Type} {k : Nat} {v : β} {l : List (Nat × β)} :
    lookupA k (insertA k v l) = some v := by
  rw [insertA, lookupA_cons, if_pos rfl]

theorem lookupA_insertA_ne {β : Type} {a k : Nat} {v : β} {l : List (Nat × β)}
    (h : a ≠ k) : lookupA a (insertA k v l) = lookupA a l := by
  rw [insertA, lookupA_cons, if_neg (Ne.symm h)]
  exact lookupA_eraseA_ne h

theorem mem_insertA {β : Type} {p : Nat × β} {k : Nat} {v : β} {l : List (Nat × β)}
    (h : p ∈ insertA k v l) : p = (k, v) ∨ (p ∈ l ∧ p.1 ≠ k) := by
  rcases List.mem_cons.mp h with h | h
  · exact Or.inl h
  · exact Or.inr (mem_eraseA.mp h)

theorem keys_eraseA_sublist {β : Type} {k : Nat} :
    ∀ {l : List (Nat × β)}, ((eraseA k l).map Prod.fst).Sublist (l.map Prod.fst) := by
  intro l
  induction l with
  | nil => simp [eraseA]
  | cons q rest ih =>
    obtain ⟨k', v'⟩ := q
    rw [eraseA_cons]
    by_cases hk : k' = k
    · rw [if_pos hk]
      simp only [List.map_cons]
      exact ih.cons _
    · rw [if_neg hk]
      simp only [List.map_cons]
      exact ih.cons₂ _

theorem not_mem_keys_eraseA {β : Type} {k : Nat} {l : List (Nat × β)} :
    k ∉ (eraseA k l).map Prod.fst := by
  intro hmem
  rcases List.mem_map.mp hmem with ⟨p, hp, hfst⟩
  exact (mem_eraseA.mp hp).2 hfst

theorem NodupKeysA_insertA {β : Type} {k : Nat} {v : β} {l : List (Nat × β)}
    (h : NodupKeysA l) : NodupKeysA (insertA k v l) := by
  unfold NodupKeysA insertA
  simp only [List.map_cons]
  exact List.Nodup.cons not_mem_keys_eraseA (h.sublist keys_eraseA_sublist)

theorem eraseA_of_not_mem_keys {β : Type} {k : Nat} :
    ∀ {l : List (Nat × β)}, k ∉ l.map Prod.fst → eraseA k l = l := by
  intro l
  induction l with
  | nil => intro _; rfl
  | cons q rest ih =>
    obtain ⟨k', v'⟩ := q
    intro h
    simp only [List.map_cons, List.mem_cons] at h
    push_neg at h
    rw [eraseA_cons, if_neg (Ne.symm h.1), ih h.2]

/-! ## Progress object (`Progress` in `src/meta/src/barrier/progress.rs`) -/

/-- `BackfillState` from `progress.rs`: the per-actor backfill state.  The epoch
of `ConsumingUpstream` is dead data in the source (`#[allow(dead_code)]`). -/
inductive BackfillState : Type
  | Init : BackfillState
  | ConsumingUpstream (epoch : Nat) (consumed_rows : Nat) : BackfillState
  | Done (consumed_rows : Nat) : BackfillState
deriving DecidableEq

/-- The row count carried by a state (`Init` carries none). -/
def BackfillState.rows : BackfillState → Nat
  | .Init => 0
  | .ConsumingUpstream _ r => r
  | .Done r => r

/-- Whether the state is `ConsumingUpstream` or `Done`. -/
def BackfillState.counted : BackfillState → Bool
  | .Init => false
  | .ConsumingUpstream _ _ => true
  | .Done _ => true

/-- `Progress` from `progress.rs`: per-job backfill progress. -/
structure Progress : Type where
  states : List (Nat × BackfillState)
  done_count : Nat
  upstream_mv_count : List (Nat × Nat)
  upstream_total_key_count : Nat
  consumed_rows : Nat
  definition : String
deriving DecidableEq

/-- `Progress::new`: all actors start in `Init`; the actors are collected into a
`HashMap` (duplicates collapse), and the constructor asserts the map is
non-empty (`none` embeds the failed assertion). -/
def Progress.new (actors : List Nat) (upstream_mv_count : List (Nat × Nat))
    (upstream_total_key_count : Nat) (defn : String) : Option Progress :=
  let states := actors.dedup.map (fun a => (a, BackfillState.Init))
  if states.isEmpty then none
  else some { states := states
              done_count := 0
              upstream_mv_count := upstream_mv_count
              upstream_total_key_count := upstream_total_key_count
              consumed_rows := 0
              definition := defn }

/-- `Progress::update`: store the freshest upstream key count, remove the old
state of `actor` (a missing actor fails the `unwrap`; an old `Done` state hits
the explicit double-done panic), subtract the old `ConsumingUpstream` row count,
add the new state's row count, bump `done_count` on `Done`, and re-insert the
actor with its new state.  `none` embeds a panic. -/
def Progress.update (p : Progress) (actor : Nat) (new_state : BackfillState)
    (upstream_total_key_count : Nat) : Option Progress :=
  match lookupA actor p.states with
  | none => none
  | some BackfillState.Init =>
    some { p with
            states := insertA actor new_state p.states
            consumed_rows := p.consumed_rows + new_state.rows
            done_count :=
              match new_state with
              | BackfillState.Done _ => p.done_count + 1
              | _ => p.done_count
            upstream_total_key_count := upstream_total_key_count }
  | some (BackfillState.ConsumingUpstream _ old_consumed_rows) =>
    some { p with
            states := insertA actor new_state p.states
            consumed_rows := p.consumed_rows - old_consumed_rows + new_state.rows
            done_count :=
              match new_state with
              | BackfillState.Done _ => p.done_count + 1
              | _ => p.done_count
            upstream_total_key_count := upstream_total_key_count }
  | some (BackfillState.Done _) => none

/-- `Progress::is_done`: every tracked actor has reported `Done`. -/
def Progress.is_done (p : Progress) : Bool :=
  p.done_count == p.states.length

/-- `Progress::calculate_progress`, with `f64` arithmetic embedded in `ℚ`:
return `1` when done or empty; otherwise divide `consumed_rows` by the key
count (`0` is replaced by `1`), and replace the quotient by `0.99` when it is
at least `1`. -/
def Progress.calculate_progress (p : Progress) : ℚ :=
  if p.is_done || p.states.isEmpty then 1
  else
    let denom : ℚ := if (p.upstream_total_key_count : ℚ) = 0 then 1
                     else (p.upstream_total_key_count : ℚ)
    let prog : ℚ := (p.consumed_rows : ℚ) / denom
    if 1 ≤ prog then 99 / 100 else prog

/-- The row counts accumulated by the `ConsumingUpstream` and `Done` states. -/
def consumedSum (states : List (Nat × BackfillState)) : Nat :=
  ((states.filter (fun kv => kv.2.counted)).map (fun kv => kv.2.rows)).sum

/-- The total of all row counts (`Init` contributes `0`). -/
def sumRows (states : List (Nat × BackfillState)) : Nat :=
  (states.map (fun kv => kv.2.rows)).sum

theorem consumedSum_eq_sumRows : ∀ states, consumedSum states = sumRows states := by
  intro states
  induction states with
  | nil => rfl
  | cons kv rest ih =>
    obtain ⟨a, s⟩ := kv
    cases s <;> simp [consumedSum, sumRows, List.filter, BackfillState.counted,
      BackfillState.rows] at ih ⊢ <;> omega

/-- Progress states reachable via `Progress::new` followed by any sequence of
non-panicking `Progress::update` calls. -/
inductive PReach : Progress → Prop
  | new (actors : List Nat) (umc : List (Nat × Nat)) (utkc : Nat) (defn : String)
      (p : Progress) : Progress.new actors umc utkc defn = some p → PReach p
  | update (p : Progress) (actor : Nat) (ns : BackfillState) (utkc : Nat)
      (p' : Progress) : PReach p → Progress.update p actor ns utkc = some p' →
      PReach p'

/-- The row count that `Progress::update` subtracts for `actor`: the old
`ConsumingUpstream` row count, and `0` for any other old state. -/
def oldConsumingRows (p : Progress) (actor : Nat) : Nat :=
  match lookupA actor p.states with
  | some (BackfillState.ConsumingUpstream _ r) => r
  | _ => 0

theorem sumRows_insertA {k : Nat} {v : BackfillState}
    {l : List (Nat × BackfillState)} :
    sumRows (insertA k v l) = v.rows + sumRows (eraseA k l) := rfl

theorem sumRows_map_init (actors : List Nat) :
    sumRows (actors.map (fun a => (a, BackfillState.Init))) = 0 := by
  induction actors with
  | nil => rfl
  | cons a rest ih => simpa [sumRows, BackfillState.rows] using ih

theorem sumRows_lookup_split {k : Nat} {v : BackfillState} :
    ∀ {l : List (Nat × BackfillState)}, NodupKeysA l → lookupA k l = some v →
      sumRows l = v.rows + sumRows (eraseA k l) := by
  intro l
  induction l with
  | nil => intro _ h; simp [lookupA] at h
  | cons q rest ih =>
    obtain ⟨k', v'⟩ := q
    intro hnd h
    rw [lookupA_cons] at h
    have hnd' : NodupKeysA rest := by
      unfold NodupKeysA at hnd ⊢
      simp only [List.map_cons] at hnd
      exact hnd.of_cons
    by_cases hk : k' = k
    · rw [if_pos hk] at h
      cases h
      have hknotin : k ∉ rest.map Prod.fst := by
        unfold NodupKeysA at hnd
        simp only [List.map_cons] at hnd
        rw [← hk]
        exact (List.nodup_cons.mp hnd).1
      rw [eraseA_cons, if_pos hk, eraseA_of_not_mem_keys hknotin]
      simp [sumRows]
    · rw [if_neg hk] at h
      rw [eraseA_cons, if_neg hk]
      have := ih hnd' h
      simp only [sumRows, List.map_cons, List.sum_cons] at this ⊢
      omega

/-- The two cases in which `Progress::update` succeeds, with the exact fields of
the successor. -/
theorem Progress.update_eq_some {p : Progress} {actor : Nat} {ns : BackfillState}
    {utkc : Nat} {p' : Progress}
    (h : Progress.update p actor ns utkc = some p') :
    (∃ old, lookupA actor p.states = some old ∧ (∀ r, old ≠ BackfillState.Done r)) ∧
    p'.states = insertA actor ns p.states ∧
    p'.consumed_rows = p.consumed_rows - oldConsumingRows p actor + ns.rows ∧
    p'.upstream_total_key_count = utkc := by
  unfold Progress.update at h
  cases hl : lookupA actor p.states with
  | none => rw [hl] at h; cases h
  | some old =>
    rw [hl] at h
    cases old with
    | Init =>
      cases h
      refine ⟨⟨BackfillState.Init, rfl, by intro r hr; cases hr⟩, rfl, ?_, rfl⟩
      simp [oldConsumingRows, hl]
    | ConsumingUpstream e r =>
      cases h
      refine ⟨⟨BackfillState.ConsumingUpstream e r, rfl, by intro r' hr; cases hr⟩,
        rfl, ?_, rfl⟩
      simp [oldConsumingRows, hl]
    | Done r => cases h

/-- Inductive invariant of reachable progress states: keys are distinct and
`consumed_rows` is the total of the per-state row counts. -/
theorem preach_invariant : ∀ p, PReach p →
    NodupKeysA p.states ∧ p.consumed_rows = sumRows p.states := by
  intro p h
  induction h with
  | new actors umc utkc defn p h =>
    unfold Progress.new at h
    by_cases he : (actors.dedup.map (fun a => (a, BackfillState.Init))).isEmpty
    · rw [if_pos he] at h; cases h
    · rw [if_neg he] at h
      cases h
      constructor
      · unfold NodupKeysA
        simp only [List.map_map]
        have : ((fun kv => Prod.fst kv) ∘ fun a => (a, BackfillState.Init)) =
            (id : Nat → Nat) := rfl
        rw [this, List.map_id]
        exact actors.nodup_dedup
      · simpa using (sumRows_map_init actors.dedup).symm
  | update p actor ns utkc p' _ hup ih =>
    obtain ⟨⟨old, hold, hnd⟩, hstates, hcons, _⟩ := Progress.update_eq_some hup
    obtain ⟨ihnd, ihsum⟩ := ih
    constructor
    · rw [hstates]; exact NodupKeysA_insertA ihnd
    · rw [hstates, sumRows_insertA, hcons, ihsum,
        sumRows_lookup_split ihnd hold]
      unfold oldConsumingRows
      rw [hold]
      cases old with
      | Init => simp [BackfillState.rows]; omega
      | ConsumingUpstream e r => simp [BackfillState.rows]; omega
      | Done r => exact absurd rfl (hnd r)

/-! ## Claims C1, C2, C3 -/

/-- C3 — For every Progress reachable from `Progress::new` (all actors `Init`,
`consumed_rows = 0`) by any sequence of valid `Progress::update` calls,
`consumed_rows` equals the sum of the row counts carried by the states that are
`ConsumingUpstream` or `Done`; moreover each successful update first subtracts
the old `ConsumingUpstream` row count of the reported actor (whatever the new
state's kind) and then adds the new state's row count. -/
theorem c3_consumed_rows_invariant : ∀ p, PReach p →
    p.consumed_rows = consumedSum p.states ∧
    ∀ actor ns utkc p', Progress.update p actor ns utkc = some p' →
      p'.consumed_rows = p.consumed_rows - oldConsumingRows p actor + ns.rows := by
  intro p h
  constructor
  · rw [consumedSum_eq_sumRows]
    exact (preach_invariant p h).2
  · intro actor ns utkc p' hup
    exact (Progress.update_eq_some hup).2.2.1

/-- The progress state right after `Progress::new([1, 2], {(100, 2)}, 10, "mv")`. -/
def pFresh : Progress :=
  { states := [(1, BackfillState.Init), (2, BackfillState.Init)]
    done_count := 0
    upstream_mv_count := [(100, 2)]
    upstream_total_key_count := 10
    consumed_rows := 0
    definition := "mv" }

/-- `pFresh` after actor 1 reports `ConsumingUpstream(5, 25)`. -/
def pHalf : Progress :=
  { states := [(1, BackfillState.ConsumingUpstream 5 25), (2, BackfillState.Init)]
    done_count := 0
    upstream_mv_count := [(100, 2)]
    upstream_total_key_count := 100
    consumed_rows := 25
    definition := "mv" }

theorem preach_pHalf : PReach pHalf :=
  PReach.update pFresh 1 (BackfillState.ConsumingUpstream 5 25) 100 pHalf
    (PReach.new [1, 2] [(100, 2)] 10 "mv" pFresh (by decide)) (by decide)

theorem c3_consumed_rows_invariant_witness :
    pHalf.consumed_rows = consumedSum pHalf.states ∧
    ∀ p', Progress.update pHalf 1 (BackfillState.Done 30) 100 = some p' →
      p'.consumed_rows = pHalf.consumed_rows - oldConsumingRows pHalf 1 + 30 :=
  ⟨(c3_consumed_rows_invariant pHalf preach_pHalf).1,
   fun p' h =>
    (c3_consumed_rows_invariant pHalf preach_pHalf).2 1 (BackfillState.Done 30)
      100 p' h⟩

/-- C2 — Once an actor's state is `Done`, any further `Progress::update` call
for that same actor (with any new state) hits the explicit
double-done panic; the panic aborts, so the actor never transitions out of
`Done` (the panicking call has no successor state, embedded as `none`). -/
theorem c2_done_update_panics : ∀ (p : Progress) (actor r : Nat)
    (ns : BackfillState) (utkc : Nat),
    lookupA actor p.states = some (BackfillState.Done r) →
    Progress.update p actor ns utkc = none := by
  intro p actor r ns utkc h
  unfold Progress.update
  rw [h]

/-- A progress state whose actor 3 has reported `Done(50)`. -/
def pDoneCex : Progress :=
  { states := [(3, BackfillState.Done 50)]
    done_count := 1
    upstream_mv_count := [(100, 1)]
    upstream_total_key_count := 50
    consumed_rows := 50
    definition := "mv" }

theorem c2_done_update_panics_witness :
    lookupA 3 pDoneCex.states = some (BackfillState.Done 50) ∧
    Progress.update pDoneCex 3 (BackfillState.Done 60) 100 = none :=
  ⟨rfl, c2_done_update_panics pDoneCex 3 50 (BackfillState.Done 60) 100 rfl⟩

/-- C1 (amended) — For every Progress value: `0 ≤ calculate_progress() ≤ 1`;
`calculate_progress() = 1` exactly when `is_done()` holds or `states` is empty;
and in every other case `calculate_progress() < 1` (the `0.99` clamp applies
only when `consumed_rows / denom ≥ 1`, so unclamped values strictly between
`0.99` and `1` are returned as-is). -/
theorem c1_progress_bounds : ∀ p : Progress,
    0 ≤ p.calculate_progress ∧ p.calculate_progress ≤ 1 ∧
    (p.calculate_progress = 1 ↔ (p.is_done || p.states.isEmpty) = true) ∧
    ((p.is_done || p.states.isEmpty) = false → p.calculate_progress < 1) := by
  intro p
  unfold Progress.calculate_progress
  by_cases hd : (p.is_done || p.states.isEmpty) = true
  · rw [if_pos hd]
    refine ⟨by norm_num, le_refl 1, by simp [hd], ?_⟩
    intro hfalse
    rw [hd] at hfalse
    cases hfalse
  · rw [if_neg hd]
    have hdenom : (0 : ℚ) <
        (if (p.upstream_total_key_count : ℚ) = 0 then 1
         else (p.upstream_total_key_count : ℚ)) := by
      by_cases h0 : (p.upstream_total_key_count : ℚ) = 0
      · rw [if_pos h0]; norm_num
      · rw [if_neg h0]
        have hc : (0 : ℚ) ≤ (p.upstream_total_key_count : ℚ) := Nat.cast_nonneg _
        rcases lt_or_eq_of_le hc with h | h
        · exact h
        · exact absurd h.symm h0
    have hnonneg : (0 : ℚ) ≤ (p.consumed_rows : ℚ) /
        (if (p.upstream_total_key_count : ℚ) = 0 then 1
         else (p.upstream_total_key_count : ℚ)) :=
      div_nonneg (Nat.cast_nonneg _) (le_of_lt hdenom)
    by_cases h1 : (1 : ℚ) ≤ (p.consumed_rows : ℚ) /
        (if (p.upstream_total_key_count : ℚ) = 0 then 1
         else (p.upstream_total_key_count : ℚ))
    · simp only [h1, if_true]
      refine ⟨by norm_num, by norm_num, ?_, fun _ => by norm_num⟩
      constructor
      · intro habs; norm_num at habs
      · intro habs; exact absurd habs hd
    · simp only [h1, if_false]
      have hlt : (p.consumed_rows : ℚ) /
          (if (p.upstream_total_key_count : ℚ) = 0 then 1
           else (p.upstream_total_key_count : ℚ)) < 1 := lt_of_not_le h1
      refine ⟨hnonneg, le_of_lt hlt, ?_, fun _ => hlt⟩
      constructor
      · intro habs; exact absurd (le_of_eq habs.symm) h1
      · intro habs; exact absurd habs hd

theorem c1_progress_bounds_witness :
    (pHalf.is_done || pHalf.states.isEmpty) = false ∧ pHalf.calculate_progress < 1 :=
  ⟨by decide, (c1_progress_bounds pHalf).2.2.2 (by decide)⟩

/-- The progress state produced by `Progress::new([1], {}, 1000, "")`. -/
def pNewCex : Progress :=
  { states := [(1, BackfillState.Init)]
    done_count := 0
    upstream_mv_count := []
    upstream_total_key_count := 1000
    consumed_rows := 0
    definition := "" }

/-- `pNewCex` after its single actor reports `ConsumingUpstream(0, 995)`. -/
def pCex : Progress :=
  { states := [(1, BackfillState.ConsumingUpstream 0 995)]
    done_count := 0
    upstream_mv_count := []
    upstream_total_key_count := 1000
    consumed_rows := 995
    definition := "" }

/-- C1 counterexample — a Progress reachable via `new` and one `update` that is
neither done nor empty yet reports progress `995/1000 = 0.995 > 0.99`: the code
clamps to `0.99` only when the quotient is at least `1`, so the claimed bound
`calculate_progress() ≤ 0.99` fails. -/
theorem c1_counterexample :
    Progress.new [1] [] 1000 "" = some pNewCex ∧
    Progress.update pNewCex 1 (BackfillState.ConsumingUpstream 0 995) 1000 =
      some pCex ∧
    (pCex.is_done || pCex.states.isEmpty) = false ∧
    ¬ (pCex.calculate_progress ≤ 99 / 100) := by
  refine ⟨by decide, by decide, by decide, ?_⟩
  have : pCex.calculate_progress = 995 / 1000 := by
    unfold Progress.calculate_progress
    norm_num [pCex, Progress.is_done]
  rw [this]
  norm_num

/-! ## Create-mview progress tracker (`CreateMviewProgressTracker`)

`TrackingCommand`/`CommandContext` live outside the selected sources; the
fields the tracker reads from them (`actors_to_track`, the created table id,
the per-upstream-MV dispatch multiplicity, the DDL definition string, the
barrier kind, and whether the command is a background-created sink job) are
bundled in `CmdInfo`.  Hummock version stats are an association list
`table id → total_key_count`. -/

/-- Barrier kind of the command context (spec §3). -/
inductive BarrierKind : Type
  | Initial : BarrierKind
  | NonCheckpoint : BarrierKind
  | Checkpoint : BarrierKind
deriving DecidableEq

def BarrierKind.is_initial : BarrierKind → Bool
  | .Initial => true
  | _ => false

def BarrierKind.is_checkpoint : BarrierKind → Bool
  | .Checkpoint => true
  | _ => false

/-- The data the tracker reads from a `CreateStreamingJob` tracking command. -/
structure CmdInfo : Type where
  kind : BarrierKind
  tableId : Nat
  actorsToTrack : List Nat
  upstream_mv_count : List (Nat × Nat)
  definition : String
  sinkBackground : Bool
deriving DecidableEq

/-- `TrackingJob`: a `New` job carries its command; a `Recovered` job is
rebuilt from persisted fragments, identified by the created table id. -/
inductive TrackingJob : Type
  | New (cmd : CmdInfo) : TrackingJob
  | Recovered (tableId : Nat) : TrackingJob
deriving DecidableEq

/-- `TrackingJob::table_to_create`. -/
def TrackingJob.table_to_create : TrackingJob → Option Nat
  | .New cmd => some cmd.tableId
  | .Recovered t => some t

/-- `TrackingJob::is_checkpoint_required`: `Recovered` jobs always require a
checkpoint; a `New` job requires one iff its command kind is initial or
checkpoint. -/
def TrackingJob.is_checkpoint_required : TrackingJob → Bool
  | .Recovered _ => true
  | .New cmd => cmd.kind.is_initial || cmd.kind.is_checkpoint

/-- Calls observable on a job during finalization. -/
inductive FEvent : Type
  | preFinish (job : TrackingJob) : FEvent
  | notifyFinished (job : TrackingJob) : FEvent
  | notifyFailed (job : TrackingJob) : FEvent
deriving DecidableEq

/-- The upstream total key count: for each upstream MV, its multiplicity times
the `total_key_count` of its version stats (`0` when absent). -/
def computeUtkc (umc : List (Nat × Nat)) (version_stats : List (Nat × Nat)) : Nat :=
  (umc.map (fun kv => kv.2 * (lookupA kv.1 version_stats).getD 0)).sum

/-- `CreateMviewProgressTracker`. -/
structure Tracker : Type where
  progress_map : List (Nat × (Progress × TrackingJob))
  actor_map : List (Nat × Nat)
  finished_jobs : List TrackingJob
deriving DecidableEq

/-- `CreateMviewProgressTracker::new`. -/
def Tracker.new : Tracker :=
  { progress_map := [], actor_map := [], finished_jobs := [] }

/-- Register every actor of `actors` in the actor map, mapped to `t`. -/
def regActors (t : Nat) (actors : List Nat) (am : List (Nat × Nat)) :
    List (Nat × Nat) :=
  actors.foldl (fun m a => insertA a t m) am

/-- The loop body of `CreateMviewProgressTracker::recover`: for each recovered
table, register its actors, rebuild a `Progress` whose states are all
`ConsumingUpstream(Epoch(0), 0)` with `done_count = 0` and `consumed_rows = 0`,
and insert a `Recovered` tracking job.  The unwraps of the upstream-mv-count
and definition maps are embedded as `none` on a missing key; the fragment and
notifier maps only feed the recovered job's payload and are not modelled. -/
def recoverGo (umcs : List (Nat × List (Nat × Nat))) (defs : List (Nat × String))
    (version_stats : List (Nat × Nat)) :
    List (Nat × List Nat) → Tracker → Option Tracker
  | [], tr => some tr
  | (t, actors) :: rest, tr =>
    match lookupA t umcs, lookupA t defs with
    | some umc, some defn =>
      recoverGo umcs defs version_stats rest
        { tr with
            actor_map := regActors t actors.dedup tr.actor_map
            progress_map :=
              insertA t
                ({ states := actors.dedup.map
                     (fun a => (a, BackfillState.ConsumingUpstream 0 0))
                   done_count := 0
                   upstream_mv_count := umc
                   upstream_total_key_count := computeUtkc umc version_stats
                   consumed_rows := 0
                   definition := defn }, TrackingJob.Recovered t)
                tr.progress_map }
    | _, _ => none

/-- `CreateMviewProgressTracker::recover`. -/
def Tracker.recover (table_map : List (Nat × List Nat))
    (umcs : List (Nat × List (Nat × Nat))) (defs : List (Nat × String))
    (version_stats : List (Nat × Nat)) : Option Tracker :=
  recoverGo umcs defs version_stats table_map Tracker.new

/-- `CreateMviewProgressTracker::add`: an empty actor set returns the job
immediately; otherwise the actors are registered and a fresh `Progress` is
built; a background-created sink job is returned without inserting a progress
entry; otherwise the entry is inserted (the duplicate-table assertion is
embedded as `none`) and the call returns nothing. -/
def Tracker.add (tr : Tracker) (cmd : CmdInfo) (version_stats : List (Nat × Nat)) :
    Option (Tracker × Option TrackingJob) :=
  if cmd.actorsToTrack.isEmpty then some (tr, some (TrackingJob.New cmd))
  else
    match Progress.new cmd.actorsToTrack cmd.upstream_mv_count
        (computeUtkc cmd.upstream_mv_count version_stats) cmd.definition with
    | none => none
    | some progress =>
      if cmd.sinkBackground then
        some ({ tr with
                  actor_map := regActors cmd.tableId cmd.actorsToTrack
                    tr.actor_map },
              some (TrackingJob.New cmd))
      else if (lookupA cmd.tableId tr.progress_map).isSome then none
      else
        some ({ tr with
                  actor_map := regActors cmd.tableId cmd.actorsToTrack
                    tr.actor_map
                  progress_map :=
                    insertA cmd.tableId (progress, TrackingJob.New cmd)
                      tr.progress_map },
              none)

/-- A `CreateMviewProgress` report from a barrier-complete response. -/
structure MviewProgressReport : Type where
  backfill_actor_id : Nat
  done : Bool
  consumed_epoch : Nat
  consumed_rows : Nat
deriving DecidableEq

/-- `CreateMviewProgressTracker::update`: route the report through `actor_map`
(an unknown actor is logged and ignored), recompute the upstream key count
(the `assert_ne!(count, 0)` is embedded as `none`), run `Progress::update`,
and when the job becomes done unregister its actors, drop the progress entry
and return the job. -/
def Tracker.update (tr : Tracker) (report : MviewProgressReport)
    (version_stats : List (Nat × Nat)) : Option (Tracker × Option TrackingJob) :=
  match lookupA report.backfill_actor_id tr.actor_map with
  | none => some (tr, none)
  | some table_id =>
    match lookupA table_id tr.progress_map with
    | none => some (tr, none)
    | some (progress, job) =>
      if progress.upstream_mv_count.any (fun kv => kv.2 == 0) then none
      else
        match progress.update report.backfill_actor_id
            (if report.done then BackfillState.Done report.consumed_rows
             else BackfillState.ConsumingUpstream report.consumed_epoch
               report.consumed_rows)
            (computeUtkc progress.upstream_mv_count version_stats) with
        | none => none
        | some progress' =>
          if progress'.is_done then
            some ({ tr with
                      actor_map := tr.actor_map.filter
                        (fun q => (lookupA q.1 progress'.states).isNone)
                      progress_map := eraseA table_id tr.progress_map },
                  some job)
          else
            some ({ tr with
                      progress_map :=
                        insertA table_id (progress', job) tr.progress_map },
                  none)

/-- `CreateMviewProgressTracker::stash_command_to_finish`. -/
def Tracker.stash_command_to_finish (tr : Tracker) (job : TrackingJob) : Tracker :=
  { tr with finished_jobs := tr.finished_jobs ++ [job] }

/-- `TrackingJob::pre_finish` followed by `notify_finished` for each drained
job, in order.  For a `New` job the catalog calls are assumed to succeed; for a
`Recovered` job `pre_finish` hits the `todo` stub and panics (`none`). -/
def runPreFinish : List TrackingJob → Option (List FEvent)
  | [] => some []
  | TrackingJob.Recovered _ :: _ => none
  | TrackingJob.New cmd :: rest =>
    (runPreFinish rest).map
      (fun es => FEvent.preFinish (TrackingJob.New cmd) ::
        FEvent.notifyFinished (TrackingJob.New cmd) :: es)

/-- The drain predicate of `finish_jobs`. -/
def drainPred (checkpoint : Bool) (job : TrackingJob) : Bool :=
  checkpoint || ! job.is_checkpoint_required

/-- `CreateMviewProgressTracker::finish_jobs`: drain the stashed jobs matching
the predicate in order, pre-finish and notify each, and report whether stashed
jobs remain. -/
def Tracker.finish_jobs (tr : Tracker) (checkpoint : Bool) :
    Option (Tracker × List FEvent × Bool) :=
  match runPreFinish (tr.finished_jobs.filter (drainPred checkpoint)) with
  | none => none
  | some es =>
    some ({ tr with finished_jobs :=
              tr.finished_jobs.filter (fun job => ! drainPred checkpoint job) },
          es,
          ! (tr.finished_jobs.filter (fun job => ! drainPred checkpoint job)).isEmpty)

/-- `CreateMviewProgressTracker::cancel_command`. -/
def Tracker.cancel_command (tr : Tracker) (id : Nat) : Tracker :=
  { progress_map := eraseA id tr.progress_map
    finished_jobs := tr.finished_jobs.filter
      (fun j => j.table_to_create != some id)
    actor_map := tr.actor_map.filter (fun q => q.2 != id) }

/-- `CreateMviewProgressTracker::abort_all`: clear everything and notify every
stashed then tracked job of the failure. -/
def Tracker.abort_all (tr : Tracker) : Tracker × List FEvent :=
  ({ progress_map := [], actor_map := [], finished_jobs := [] },
   tr.finished_jobs.map FEvent.notifyFailed ++
     tr.progress_map.map (fun kv => FEvent.notifyFailed kv.2.2))

/-- Freshness of a command's table id: no live actor-map entry and no progress
entry uses it (table ids of distinct streaming jobs are globally unique). -/
def FreshCmd (cmd : CmdInfo) (tr : Tracker) : Prop :=
  lookupA cmd.tableId tr.progress_map = none ∧
  ∀ q ∈ tr.actor_map, q.2 ≠ cmd.tableId

/-- Tracker states reachable from `new` or `recover` by non-panicking calls.
The `add` step carries the freshness side condition on the command's table id;
when `allowSink` is `false`, background-created sink commands are excluded. -/
inductive TReach (allowSink : Bool) : Tracker → Prop
  | new : TReach allowSink Tracker.new
  | recover (table_map : List (Nat × List Nat)) (umcs : List (Nat × List (Nat × Nat)))
      (defs : List (Nat × String)) (vs : List (Nat × Nat)) (tr : Tracker) :
      (table_map.map Prod.fst).Nodup →
      Tracker.recover table_map umcs defs vs = some tr → TReach allowSink tr
  | add (tr : Tracker) (cmd : CmdInfo) (vs : List (Nat × Nat)) (tr' : Tracker)
      (r : Option TrackingJob) : TReach allowSink tr →
      (allowSink = true ∨ cmd.sinkBackground = false) → FreshCmd cmd tr →
      Tracker.add tr cmd vs = some (tr', r) → TReach allowSink tr'
  | update (tr : Tracker) (report : MviewProgressReport) (vs : List (Nat × Nat))
      (tr' : Tracker) (r : Option TrackingJob) : TReach allowSink tr →
      Tracker.update tr report vs = some (tr', r) → TReach allowSink tr'
  | stash (tr : Tracker) (job : TrackingJob) : TReach allowSink tr →
      TReach allowSink (tr.stash_command_to_finish job)
  | finish (tr : Tracker) (checkpoint : Bool) (tr' : Tracker) (es : List FEvent)
      (r : Bool) : TReach allowSink tr →
      Tracker.finish_jobs tr checkpoint = some (tr', es, r) → TReach allowSink tr'
  | cancel (tr : Tracker) (id : Nat) : TReach allowSink tr →
      TReach allowSink (tr.cancel_command id)
  | abort (tr : Tracker) : TReach allowSink tr → TReach allowSink tr.abort_all.1

/-! ## Tracker invariants -/

/-- Weak routing invariant: when an actor-map entry's table has a progress
entry, the actor is registered in that progress's states. -/
def WInv (tr : Tracker) : Prop :=
  ∀ q ∈ tr.actor_map, ∀ pj, lookupA q.2 tr.progress_map = some pj →
    (lookupA q.1 (Prod.fst pj).states).isSome

/-- Strong routing invariant: every actor-map entry's table has a progress
entry, and the actor is registered in that progress's states. -/
def SInv (tr : Tracker) : Prop :=
  ∀ q ∈ tr.actor_map, ∃ pj, lookupA q.2 tr.progress_map = some pj ∧
    (lookupA q.1 (Prod.fst pj).states).isSome

theorem sinv_to_winv {tr : Tracker} (h : SInv tr) : WInv tr := by
  intro q hq pj hpj
  obtain ⟨pj', hpj', hs⟩ := h q hq
  rw [hpj] at hpj'
  cases hpj'
  exact hs

theorem mem_regActors {p : Nat × Nat} {t : Nat} :
    ∀ {actors : List Nat} {am : List (Nat × Nat)}, p ∈ regActors t actors am →
      (p.1 ∈ actors ∧ p.2 = t) ∨ p ∈ am := by
  intro actors
  induction actors with
  | nil => intro am h; exact Or.inr h
  | cons a rest ih =>
    intro am h
    rcases ih h with ⟨hm, ht⟩ | h2
    · exact Or.inl ⟨List.mem_cons_of_mem _ hm, ht⟩
    · rcases mem_insertA h2 with heq | ⟨hmem, _⟩
      · rw [heq]
        exact Or.inl ⟨List.mem_cons_self _ _, rfl⟩
      · exact Or.inr hmem

theorem lookupA_map_pair {β : Type} {c : β} {a : Nat} :
    ∀ {l : List Nat}, lookupA a (l.map (fun x => (x, c))) =
      if a ∈ l then some c else none := by
  intro l
  induction l with
  | nil => simp [lookupA]
  | cons x rest ih =>
    simp only [List.map_cons, lookupA_cons, ih]
    by_cases hx : x = a
    · simp [hx]
    · rw [if_neg hx]
      by_cases hm : a ∈ rest
      · simp [hm, List.mem_cons, hx]
      · have : a ∉ x :: rest := by
          intro hc
          rcases List.mem_cons.mp hc with hc | hc
          · exact hx hc.symm
          · exact hm hc
        simp [hm, this]

theorem lookupA_map_pair_isSome {β : Type} {c : β} {a : Nat} {l : List Nat}
    (h : a ∈ l) : (lookupA a (l.map (fun x => (x, c)))).isSome := by
  rw [lookupA_map_pair, if_pos h]
  rfl

/-- `Progress::update` preserves the set of registered actors. -/
theorem Progress.update_keys {p : Progress} {actor : Nat} {ns : BackfillState}
    {utkc : Nat} {p' : Progress} (h : Progress.update p actor ns utkc = some p')
    (x : Nat) : (lookupA x p'.states).isSome ↔ (lookupA x p.states).isSome := by
  obtain ⟨⟨old, hold, _⟩, hstates, _, _⟩ := Progress.update_eq_some h
  rw [hstates]
  by_cases hx : x = actor
  · subst hx
    rw [lookupA_insertA_self, hold]
    simp
  · rw [lookupA_insertA_ne hx]

theorem Progress.new_states {actors : List Nat} {umc : List (Nat × Nat)}
    {utkc : Nat} {defn : String} {p : Progress}
    (h : Progress.new actors umc utkc defn = some p) :
    p.states = actors.dedup.map (fun a => (a, BackfillState.Init)) := by
  unfold Progress.new at h
  by_cases he : (actors.dedup.map (fun a => (a, BackfillState.Init))).isEmpty
  · rw [if_pos he] at h; cases h
  · rw [if_neg he] at h; cases h; rfl

theorem finish_jobs_fields {tr : Tracker} {cp : Bool} {tr' : Tracker}
    {es : List FEvent} {r : Bool}
    (h : Tracker.finish_jobs tr cp = some (tr', es, r)) :
    tr'.actor_map = tr.actor_map ∧ tr'.progress_map = tr.progress_map := by
  unfold Tracker.finish_jobs at h
  split at h
  · cases h
  · cases h; exact ⟨rfl, rfl⟩

theorem winv_add {tr : Tracker} {cmd : CmdInfo} {vs : List (Nat × Nat)}
    {tr' : Tracker} {r : Option TrackingJob} (hw : WInv tr)
    (hfresh : FreshCmd cmd tr) (h : Tracker.add tr cmd vs = some (tr', r)) :
    WInv tr' := by
  unfold Tracker.add at h
  split at h
  · cases h; exact hw
  · split at h
    · cases h
    · rename_i progress hnew
      split at h
      · cases h
        intro q hq pj hpj
        rcases mem_regActors hq with ⟨_, ht⟩ | hold
        · rw [ht] at hpj
          rw [hfresh.1] at hpj
          cases hpj
        · exact hw q hold pj hpj
      · split at h
        · cases h
        · cases h
          intro q hq pj hpj
          rcases mem_regActors hq with ⟨hmem, ht⟩ | hold
          · rw [ht] at hpj
            rw [lookupA_insertA_self] at hpj
            cases hpj
            rw [Progress.new_states hnew]
            exact lookupA_map_pair_isSome (List.mem_dedup.mpr hmem)
          · have hne : q.2 ≠ cmd.tableId := hfresh.2 q hold
            rw [lookupA_insertA_ne hne] at hpj
            exact hw q hold pj hpj

theorem sinv_add {tr : Tracker} {cmd : CmdInfo} {vs : List (Nat × Nat)}
    {tr' : Tracker} {r : Option TrackingJob} (hs : SInv tr)
    (hfresh : FreshCmd cmd tr) (hsink : cmd.sinkBackground = false)
    (h : Tracker.add tr cmd vs = some (tr', r)) : SInv tr' := by
  unfold Tracker.add at h
  split at h
  · cases h; exact hs
  · split at h
    · cases h
    · rename_i progress hnew
      split at h
      · rename_i hsinkT
        rw [hsink] at hsinkT
        cases hsinkT
      · split at h
        · cases h
        · cases h
          intro q hq
          rcases mem_regActors hq with ⟨hmem, ht⟩ | hold
          · refine ⟨(progress, TrackingJob.New cmd), ?_, ?_⟩
            · rw [ht]; exact lookupA_insertA_self
            · rw [Progress.new_states hnew]
              exact lookupA_map_pair_isSome (List.mem_dedup.mpr hmem)
          · obtain ⟨pj, hpj, hsome⟩ := hs q hold
            have hne : q.2 ≠ cmd.tableId := hfresh.2 q hold
            exact ⟨pj, by rw [lookupA_insertA_ne hne]; exact hpj, hsome⟩

theorem winv_update {tr : Tracker} {report : MviewProgressReport}
    {vs : List (Nat × Nat)} {tr' : Tracker} {r : Option TrackingJob}
    (hw : WInv tr) (h : Tracker.update tr report vs = some (tr', r)) :
    WInv tr' := by
  unfold Tracker.update at h
  split at h
  · cases h; exact hw
  · rename_i table_id ha
    split at h
    · cases h; exact hw
    · rename_i progress job hp
      split at h
      · cases h
      · split at h
        · cases h
        · rename_i progress' hup
          split at h
          · cases h
            intro q hq pj hpj
            have hq2 := List.mem_filter.mp hq
            by_cases ht : q.2 = table_id
            · rw [ht, lookupA_eraseA_self] at hpj
              cases hpj
            · rw [lookupA_eraseA_ne ht] at hpj
              exact hw q hq2.1 pj hpj
          · cases h
            intro q hq pj hpj
            by_cases ht : q.2 = table_id
            · rw [ht, lookupA_insertA_self] at hpj
              cases hpj
              have := hw q hq (progress, job) (by rw [ht]; exact hp)
              rw [Progress.update_keys hup]
              exact this
            · rw [lookupA_insertA_ne ht] at hpj
              exact hw q hq pj hpj

theorem sinv_update {tr : Tracker} {report : MviewProgressReport}
    {vs : List (Nat × Nat)} {tr' : Tracker} {r : Option TrackingJob}
    (hs : SInv tr) (h : Tracker.update tr report vs = some (tr', r)) :
    SInv tr' := by
  unfold Tracker.update at h
  split at h
  · cases h; exact hs
  · rename_i table_id ha
    split at h
    · cases h; exact hs
    · rename_i progress job hp
      split at h
      · cases h
      · split at h
        · cases h
        · rename_i progress' hup
          split at h
          · cases h
            intro q hq
            have hq2 := List.mem_filter.mp hq
            obtain ⟨pj, hpj, hsome⟩ := hs q hq2.1
            by_cases ht : q.2 = table_id
            · exfalso
              rw [ht, hp] at hpj
              cases hpj
              rw [← Progress.update_keys hup] at hsome
              have hnone := hq2.2
              simp only [Option.isNone_iff_eq_none] at hnone
              rw [hnone] at hsome
              cases hsome
            · exact ⟨pj, by rw [lookupA_eraseA_ne ht]; exact hpj, hsome⟩
          · cases h
            intro q hq
            obtain ⟨pj, hpj, hsome⟩ := hs q hq
            by_cases ht : q.2 = table_id
            · refine ⟨(progress', job), by rw [ht]; exact lookupA_insertA_self, ?_⟩
              rw [ht, hp] at hpj
              cases hpj
              rw [Progress.update_keys hup]
              exact hsome
            · exact ⟨pj, by rw [lookupA_insertA_ne ht]; exact hpj, hsome⟩

theorem winv_cancel {tr : Tracker} {id : Nat} (hw : WInv tr) :
    WInv (tr.cancel_command id) := by
  intro q hq pj hpj
  have hq2 := List.mem_filter.mp hq
  have hne : q.2 ≠ id := by
    have := hq2.2
    simpa using this
  rw [show (Tracker.cancel_command tr id).progress_map = eraseA id tr.progress_map
    from rfl, lookupA_eraseA_ne hne] at hpj
  exact hw q hq2.1 pj hpj

theorem sinv_cancel {tr : Tracker} {id : Nat} (hs : SInv tr) :
    SInv (tr.cancel_command id) := by
  intro q hq
  have hq2 := List.mem_filter.mp hq
  have hne : q.2 ≠ id := by
    have := hq2.2
    simpa using this
  obtain ⟨pj, hpj, hsome⟩ := hs q hq2.1
  exact ⟨pj, by
    rw [show (Tracker.cancel_command tr id).progress_map = eraseA id tr.progress_map
      from rfl, lookupA_eraseA_ne hne]
    exact hpj, hsome⟩

theorem sinv_recoverGo {umcs : List (Nat × List (Nat × Nat))}
    {defs : List (Nat × String)} {vs : List (Nat × Nat)} :
    ∀ (l : List (Nat × List Nat)) (tr tr' : Tracker),
      (l.map Prod.fst).Nodup →
      (∀ q ∈ tr.actor_map, q.2 ∉ l.map Prod.fst) →
      SInv tr → recoverGo umcs defs vs l tr = some tr' → SInv tr' := by
  intro l
  induction l with
  | nil => intro tr tr' _ _ hs h; cases h; exact hs
  | cons e rest ih =>
    obtain ⟨t, actors⟩ := e
    intro tr tr' hnd havoid hs h
    unfold recoverGo at h
    cases humc : lookupA t umcs with
    | none => rw [humc] at h; cases h
    | some umc =>
      cases hdef : lookupA t defs with
      | none => rw [humc, hdef] at h; cases h
      | some defn =>
        rw [humc, hdef] at h
        simp only [List.map_cons, List.nodup_cons] at hnd
        refine ih _ tr' hnd.2 ?_ ?_ h
        · intro q hq
          rcases mem_regActors hq with ⟨_, ht⟩ | hold
          · rw [ht]; exact hnd.1
          · intro hc
            exact havoid q hold (List.mem_cons_of_mem _ hc)
        · intro q hq
          rcases mem_regActors hq with ⟨hmem, ht⟩ | hold
          · rw [ht]
            exact ⟨_, lookupA_insertA_self, lookupA_map_pair_isSome hmem⟩
          · obtain ⟨pj, hpj, hsome⟩ := hs q hold
            have hne : q.2 ≠ t := by
              intro hc
              exact havoid q hold (by rw [hc]; exact List.mem_cons_self _ _)
            exact ⟨pj, by rw [lookupA_insertA_ne hne]; exact hpj, hsome⟩

theorem sinv_recover {table_map : List (Nat × List Nat)}
    {umcs : List (Nat × List (Nat × Nat))} {defs : List (Nat × String)}
    {vs : List (Nat × Nat)} {tr : Tracker}
    (hnd : (table_map.map Prod.fst).Nodup)
    (h : Tracker.recover table_map umcs defs vs = some tr) : SInv tr := by
  refine sinv_recoverGo table_map Tracker.new tr hnd ?_ ?_ h
  · intro q hq; cases hq
  · intro q hq; cases hq

/-- Every tracker state reachable without background-created sink commands
satisfies the strong routing invariant. -/
theorem treach_sinv : ∀ tr, TReach false tr → SInv tr := by
  intro tr h
  induction h with
  | new => intro q hq; cases hq
  | recover table_map umcs defs vs tr hnd hrec => exact sinv_recover hnd hrec
  | add tr cmd vs tr' r _ hsink hfresh hadd ih =>
    rcases hsink with hsink | hsink
    · cases hsink
    · exact sinv_add ih hfresh hsink hadd
  | update tr report vs tr' r _ hup ih => exact sinv_update ih hup
  | stash tr job _ ih => exact ih
  | finish tr cp tr' es r _ hfin ih =>
    obtain ⟨ham, hpm⟩ := finish_jobs_fields hfin
    intro q hq
    rw [ham] at hq
    obtain ⟨pj, hpj, hsome⟩ := ih q hq
    exact ⟨pj, by rw [hpm]; exact hpj, hsome⟩
  | cancel tr id _ ih => exact sinv_cancel ih
  | abort tr _ _ => intro q hq; cases hq

/-- Every reachable tracker state (sink commands allowed) satisfies the weak
routing invariant. -/
theorem treach_winv : ∀ (b : Bool) (tr : Tracker), TReach b tr → WInv tr := by
  intro b tr h
  induction h with
  | new => intro q hq; cases hq
  | recover table_map umcs defs vs tr hnd hrec =>
    exact sinv_to_winv (sinv_recover hnd hrec)
  | add tr cmd vs tr' r _ _ hfresh hadd ih => exact winv_add ih hfresh hadd
  | update tr report vs tr' r _ hup ih => exact winv_update ih hup
  | stash tr job _ ih => exact ih
  | finish tr cp tr' es r _ hfin ih =>
    obtain ⟨ham, hpm⟩ := finish_jobs_fields hfin
    intro q hq pj hpj
    rw [ham] at hq
    rw [hpm] at hpj
    exact ih q hq pj hpj
  | cancel tr id _ ih => exact winv_cancel ih
  | abort tr _ _ => intro q hq pj; cases hq

/-! ## Claims C4, C9, C5 -/

/-- C4 (amended) — For every tracker state reachable from `new()` or
`recover()` by `add`, `update`, `stash_command_to_finish`, `finish_jobs`,
`cancel_command` and `abort_all` calls in which every added command has a
fresh table id and no added command is a background-created sink job, every
entry `(actor, table_id)` of `actor_map` has its `table_id` present in
`progress_map` or among the table ids of `finished_jobs` (in fact always in
`progress_map`). -/
theorem c4_actor_map_invariant : ∀ tr, TReach false tr →
    ∀ q ∈ tr.actor_map,
      (lookupA q.2 tr.progress_map).isSome ∨
        tr.finished_jobs.any (fun j => j.table_to_create == some q.2) := by
  intro tr h q hq
  obtain ⟨pj, hpj, _⟩ := treach_sinv tr h q hq
  exact Or.inl (by rw [hpj]; rfl)

/-- A non-sink `CreateStreamingJob` command for table 5 with backfill actor 7. -/
def cmdNorm : CmdInfo :=
  { kind := BarrierKind.Checkpoint
    tableId := 5
    actorsToTrack := [7]
    upstream_mv_count := [(100, 1)]
    definition := "mv"
    sinkBackground := false }

/-- The progress entry created by adding `cmdNorm` under version stats
`{100 ↦ 50}`. -/
def progNorm : Progress :=
  { states := [(7, BackfillState.Init)]
    done_count := 0
    upstream_mv_count := [(100, 1)]
    upstream_total_key_count := 50
    consumed_rows := 0
    definition := "mv" }

/-- The tracker state right after `add(cmdNorm)` on a fresh tracker. -/
def trNorm : Tracker :=
  { progress_map := [(5, (progNorm, TrackingJob.New cmdNorm))]
    actor_map := [(7, 5)]
    finished_jobs := [] }

theorem treach_trNorm (b : Bool) : TReach b trNorm :=
  TReach.add Tracker.new cmdNorm [(100, 50)] trNorm none TReach.new
    (Or.inr rfl) ⟨rfl, fun q hq => absurd hq (List.not_mem_nil q)⟩ (by decide)

theorem c4_actor_map_invariant_witness :
    (7, 5) ∈ trNorm.actor_map ∧
    ((lookupA 5 trNorm.progress_map).isSome ∨
      trNorm.finished_jobs.any (fun j => j.table_to_create == some 5)) :=
  ⟨by decide,
   c4_actor_map_invariant trNorm (treach_trNorm false) (7, 5) (by decide)⟩

/-- A background-created sink command for table 5 with backfill actor 7. -/
def cmdSink : CmdInfo :=
  { kind := BarrierKind.Checkpoint
    tableId := 5
    actorsToTrack := [7]
    upstream_mv_count := [(100, 1)]
    definition := "sink"
    sinkBackground := true }

/-- The tracker right after `add(cmdSink)` on a fresh tracker: the actor is
registered but no progress entry is inserted and nothing is stashed. -/
def trSink : Tracker :=
  { progress_map := [], actor_map := [(7, 5)], finished_jobs := [] }

/-- C4 counterexample — adding a background-created sink job registers its
backfill actors in `actor_map` but inserts no progress entry and stashes
nothing, so the reachable state `trSink` violates the claimed invariant at the
entry `(7, 5)`. -/
theorem c4_counterexample :
    TReach true trSink ∧ (7, 5) ∈ trSink.actor_map ∧
    ¬ ((lookupA 5 trSink.progress_map).isSome ∨
        trSink.finished_jobs.any (fun j => j.table_to_create == some 5)) :=
  ⟨TReach.add Tracker.new cmdSink [(100, 50)] trSink
      (some (TrackingJob.New cmdSink)) TReach.new (Or.inl rfl)
      ⟨rfl, fun q hq => absurd hq (List.not_mem_nil q)⟩ (by decide),
   by decide, by decide⟩

/-- C9 — `Progress::update` unconditionally unwraps the removal of the
reported actor, so it panics whenever the actor is not registered in the
progress's states; and under the tracker's update path this unwrap is
unreachable: in every reachable tracker state (added table ids fresh), any
actor-map entry whose table has a progress entry is registered in that
progress's states. -/
theorem c9_update_unwrap_safety :
    (∀ (p : Progress) (actor : Nat) (ns : BackfillState) (utkc : Nat),
      lookupA actor p.states = none → Progress.update p actor ns utkc = none) ∧
    (∀ (b : Bool) (tr : Tracker), TReach b tr → ∀ q ∈ tr.actor_map,
      ∀ pj, lookupA q.2 tr.progress_map = some pj →
        (lookupA q.1 (Prod.fst pj).states).isSome) := by
  constructor
  · intro p actor ns utkc h
    unfold Progress.update
    rw [h]
  · intro b tr h
    exact treach_winv b tr h

theorem c9_update_unwrap_safety_witness :
    Progress.update progNorm 9 BackfillState.Init 0 = none ∧
    (lookupA 7 progNorm.states).isSome :=
  ⟨c9_update_unwrap_safety.1 progNorm 9 BackfillState.Init 0 rfl,
   c9_update_unwrap_safety.2 true trNorm (treach_trNorm true) (7, 5) (by decide)
     (progNorm, TrackingJob.New cmdNorm) rfl⟩

/-- A tracker whose only stashed finished job is a `Recovered` job. -/
def trRecoveredStash : Tracker :=
  { progress_map := [], actor_map := [],
    finished_jobs := [TrackingJob.Recovered 3] }

/-- C5 — evaluation at the failing input: a stashed `Recovered` job requires a
checkpoint, so `finish_jobs(true)` drains it, but `pre_finish` on a `Recovered`
job hits the `todo` stub and panics (`none`): the job is neither pre-finished
nor notified and nothing is returned, contradicting the specified
drain-pre_finish-notify behaviour. -/
theorem c5_finish_recovered_panics :
    (TrackingJob.Recovered 3).is_checkpoint_required = true ∧
    drainPred true (TrackingJob.Recovered 3) = true ∧
    Tracker.finish_jobs trRecoveredStash true = none :=
  ⟨rfl, rfl, rfl⟩

/-! ## Hash-aggregation operator (`src/stream/src/executor/hash_agg.rs`)

The operator's backing state tables — the tables of the materialized-input
agg-call storages (`iter_table_storage`), the distinct-dedup tables, and the
result table, chained in this order by `all_state_tables_mut` — are embedded
by their table ids.  The state tables themselves, `iter_table_storage` and the
`cache_may_stale` helper live outside the selected sources and are modelled
from the spec where noted. -/

/-- The backing state tables of the operator, by table id. -/
structure AggStateTables : Type where
  mat_input_tables : List Nat
  dedup_tables : List Nat
  result_table : Nat
deriving DecidableEq

/-- `ExecutorInner::all_state_tables_mut`: agg-call storages, then
distinct-dedup tables, then the result table. -/
def all_state_tables (t : AggStateTables) : List Nat :=
  t.mat_input_tables ++ t.dedup_tables ++ [t.result_table]

/-- The two state-table commit entry points. -/
inductive CommitKind : Type
  | noData : CommitKind
  | withData : CommitKind
deriving DecidableEq

/-- The commit calls issued by the tail of `HashAggExecutor::flush_data` for
one barrier, in order: when no group changed and no window watermark is
pending, `commit_no_data_expected` on every backing table, otherwise `commit`
on every backing table.  (Per the spec, the collaborators invoked earlier in
`flush_data` — sort-buffer consumption and distinct-dedup flushing — only
write, they never commit.) -/
def flush_commit_trace (t : AggStateTables) (n_dirty_group : Nat)
    (window_watermark : Option Nat) : List (Nat × CommitKind) :=
  if n_dirty_group == 0 && window_watermark.isNone then
    (all_state_tables t).map (fun tid => (tid, CommitKind.noData))
  else
    (all_state_tables t).map (fun tid => (tid, CommitKind.withData))

/-- How many commit calls of the trace target table `tid`. -/
def commitsFor (tid : Nat) (trace : List (Nat × CommitKind)) : Nat :=
  (trace.filter (fun e => e.1 == tid)).length

theorem commitsFor_map_pair {tid : Nat} {c : CommitKind} :
    ∀ (l : List Nat), commitsFor tid (l.map (fun x => (x, c))) = l.count tid := by
  intro l
  induction l with
  | nil => rfl
  | cons x rest ih =>
    by_cases hx : (x == tid) = true <;>
      simp [commitsFor, List.filter_cons, List.count_cons, hx] at ih ⊢ <;>
      omega

/-- C6 — Per barrier, `flush_data` commits each backing state table exactly
once: `commit_no_data_expected` on every table when no group changed since the
last barrier and no window watermark is pending, `commit` on every table
otherwise. -/
theorem c6_commit_trace : ∀ (t : AggStateTables) (n : Nat) (ww : Option Nat),
    (n = 0 ∧ ww = none →
      flush_commit_trace t n ww =
        (all_state_tables t).map (fun tid => (tid, CommitKind.noData))) ∧
    (¬ (n = 0 ∧ ww = none) →
      flush_commit_trace t n ww =
        (all_state_tables t).map (fun tid => (tid, CommitKind.withData))) ∧
    ((all_state_tables t).Nodup → ∀ tid ∈ all_state_tables t,
      commitsFor tid (flush_commit_trace t n ww) = 1) := by
  intro t n ww
  refine ⟨?_, ?_, ?_⟩
  · rintro ⟨hn, hw⟩
    subst hn; subst hw
    rfl
  · intro hne
    have hcond : (n == 0 && ww.isNone) = false := by
      cases hw : ww with
      | none =>
        cases hn : n with
        | zero => exact (hne ⟨hn, hw⟩).elim
        | succ m => simp
      | some x => simp
    unfold flush_commit_trace
    rw [hcond]
    simp
  · intro hnd tid hmem
    unfold flush_commit_trace
    by_cases hcond : (n == 0 && ww.isNone) = true
    · rw [if_pos hcond, commitsFor_map_pair]
      exact List.count_eq_one_of_mem hnd hmem
    · rw [if_neg hcond, commitsFor_map_pair]
      exact List.count_eq_one_of_mem hnd hmem

/-- One concrete operator with two agg-call tables, one dedup table and the
result table. -/
def aggTablesEx : AggStateTables :=
  { mat_input_tables := [11, 12], dedup_tables := [13], result_table := 14 }

theorem c6_commit_trace_witness :
    flush_commit_trace aggTablesEx 0 none =
      (all_state_tables aggTablesEx).map (fun tid => (tid, CommitKind.noData)) ∧
    flush_commit_trace aggTablesEx 3 none =
      (all_state_tables aggTablesEx).map (fun tid => (tid, CommitKind.withData)) ∧
    commitsFor 13 (flush_commit_trace aggTablesEx 3 none) = 1 :=
  ⟨(c6_commit_trace aggTablesEx 0 none).1 ⟨rfl, rfl⟩,
   (c6_commit_trace aggTablesEx 3 none).2.1
     (fun h => absurd h.1 (by decide)),
   (c6_commit_trace aggTablesEx 3 none).2.2 (by decide) 13 (by decide)⟩

/-- Modelled from the spec: `cache_may_stale(prev, new)` (from the cache
module, outside the selected sources) holds iff some previously-owned vnode is
no longer owned.  Vnode bitmaps are embedded as lists of owned vnodes. -/
def cache_may_stale (prev cur : List Nat) : Bool :=
  prev.any (fun v => ! cur.contains v)

/-- The vnode-bitmap-related state of the operator at a barrier: the vnode
bitmap of every backing table (the previous bitmap is read from the result
table), the agg-group cache and the per-distinct-column dedup caches. -/
structure HashAggVnodeState : Type where
  mat_input_vnodes : List (List Nat)
  dedup_vnodes : List (List Nat)
  result_vnodes : List Nat
  agg_group_cache : List (Nat × Nat)
  dedup_caches : List (List (Nat × Nat))
deriving DecidableEq

/-- The `UpdateVnodeBitmap` mutation handling in
`HashAggExecutor::execute_inner`: when the barrier carries a vnode bitmap
addressed to this actor (`as_update_vnode_bitmap`, modelled from the spec as
an `Option`), swap the bitmap on every backing table and, when
`cache_may_stale(previous, new)`, clear the agg-group cache and every dedup
cache before the barrier is yielded. -/
def handle_update_vnode_bitmap (s : HashAggVnodeState)
    (vnode_bitmap : Option (List Nat)) : HashAggVnodeState :=
  match vnode_bitmap with
  | none => s
  | some b =>
    if cache_may_stale s.result_vnodes b then
      { mat_input_vnodes := s.mat_input_vnodes.map (fun _ => b)
        dedup_vnodes := s.dedup_vnodes.map (fun _ => b)
        result_vnodes := b
        agg_group_cache := []
        dedup_caches := s.dedup_caches.map (fun _ => []) }
    else
      { s with
          mat_input_vnodes := s.mat_input_vnodes.map (fun _ => b)
          dedup_vnodes := s.dedup_vnodes.map (fun _ => b)
          result_vnodes := b }

/-- C7 — On an `UpdateVnodeBitmap` mutation addressed to this actor, every
backing table's vnode bitmap becomes the new bitmap, and whenever
`cache_may_stale(previous, new)` holds the agg-group cache and all dedup
caches are fully cleared, so a subsequent lookup of any key misses. -/
theorem c7_vnode_update : ∀ (s : HashAggVnodeState) (b : List Nat),
    (∀ v ∈ (handle_update_vnode_bitmap s (some b)).mat_input_vnodes, v = b) ∧
    (∀ v ∈ (handle_update_vnode_bitmap s (some b)).dedup_vnodes, v = b) ∧
    (handle_update_vnode_bitmap s (some b)).result_vnodes = b ∧
    (cache_may_stale s.result_vnodes b = true →
      (handle_update_vnode_bitmap s (some b)).agg_group_cache = [] ∧
      (∀ c ∈ (handle_update_vnode_bitmap s (some b)).dedup_caches, c = []) ∧
      (∀ k, lookupA k (handle_update_vnode_bitmap s (some b)).agg_group_cache =
        none)) := by
  intro s b
  simp only [handle_update_vnode_bitmap]
  by_cases hst : cache_may_stale s.result_vnodes b = true
  · rw [if_pos hst]
    refine ⟨?_, ?_, rfl, fun _ => ⟨rfl, ?_, fun k => rfl⟩⟩
    · intro v hv
      rcases List.mem_map.mp hv with ⟨x, _, hx⟩
      exact hx.symm
    · intro v hv
      rcases List.mem_map.mp hv with ⟨x, _, hx⟩
      exact hx.symm
    · intro c hc
      rcases List.mem_map.mp hc with ⟨x, _, hx⟩
      exact hx.symm
  · rw [if_neg hst]
    refine ⟨?_, ?_, rfl, fun habs => absurd habs hst⟩
    · intro v hv
      rcases List.mem_map.mp hv with ⟨x, _, hx⟩
      exact hx.symm
    · intro v hv
      rcases List.mem_map.mp hv with ⟨x, _, hx⟩
      exact hx.symm

/-- An operator owning vnodes 0 and 1, with one cached group and one dedup
cache entry. -/
def vnodeStateEx : HashAggVnodeState :=
  { mat_input_vnodes := [[0, 1], [0, 1]]
    dedup_vnodes := [[0, 1]]
    result_vnodes := [0, 1]
    agg_group_cache := [(5, 1)]
    dedup_caches := [[(3, 4)]] }

theorem c7_vnode_update_witness :
    cache_may_stale vnodeStateEx.result_vnodes [0] = true ∧
    (handle_update_vnode_bitmap vnodeStateEx (some [0])).result_vnodes = [0] ∧
    (handle_update_vnode_bitmap vnodeStateEx (some [0])).agg_group_cache = [] ∧
    lookupA 5 (handle_update_vnode_bitmap vnodeStateEx (some [0])).agg_group_cache
      = none :=
  ⟨by decide,
   (c7_vnode_update vnodeStateEx [0]).2.2.1,
   ((c7_vnode_update vnodeStateEx [0]).2.2.2 (by decide)).1,
   ((c7_vnode_update vnodeStateEx [0]).2.2.2 (by decide)).2.2 5⟩

/-! ## Adaptive cache resize (`HashAggExecutor::update_bucket_size`) -/

/-- The reuse-distance bucket sizing state kept in `ExecutionStats`. -/
structure BucketStats : Type where
  bucket_size : Nat
  ghost_bucket_size : Nat
  ghost_start : Nat
deriving DecidableEq

/-- `f64::round` followed by `as usize`, for the nonnegative values arising
here: round half away from zero, embedded over `ℚ`. -/
def roundPos (q : ℚ) : Nat := (round q).toNat

/-- The resize condition of `update_bucket_size`: the entry count exceeds the
previous reference count `bucket_size * B` by more than a factor `1.2`, or
falls below a factor `0.7` of it, and the entry count is above `100`. -/
def resize_trigger (B : Nat) (stats : BucketStats) (entry_count : Nat) : Bool :=
  decide ((((stats.bucket_size * B : Nat) : ℚ) * (12 / 10) < (entry_count : ℚ) ∨
           ((stats.bucket_size * B : Nat) : ℚ) * (7 / 10) > (entry_count : ℚ)) ∧
          100 < entry_count)

/-- `HashAggExecutor::update_bucket_size` with `f64` arithmetic embedded in
`ℚ`.  `B` is the `BUCKET_NUMBER` constant (defined outside the selected
sources; the spec fixes it as a small positive constant) and `gcm` the
ghost-cap multiple the code derives from the cache's average kv size, clamped
into `[1, DEFAULT_GHOST_CAP_MUTIPLE]`; the code's `ghost_cap` is
`gcm * entry_count`.  The accompanying `set_ghost_cap` call mutates only the
cache and is not part of the returned stats. -/
def update_bucket_size (B gcm : Nat) (stats : BucketStats) (entry_count : Nat) :
    BucketStats :=
  if resize_trigger B stats entry_count then
    { bucket_size := max (roundPos ((entry_count : ℚ) * (11 / 10) / (B : ℚ))) 1
      ghost_bucket_size := max (roundPos (((entry_count : ℚ) * (3 / 10) +
        ((gcm * entry_count : Nat) : ℚ)) / (B : ℚ))) 1
      ghost_start := max (roundPos ((entry_count : ℚ) * (8 / 10))) 1 }
  else stats

/-- C8 (amended) — The per-barrier adaptive resize sets
`bucket_size := max(1, round(1.1·n/B))`,
`ghost_bucket_size := max(1, round((0.3·n + ghost_cap)/B))` and
`ghost_start := max(1, round(0.8·n))`, and is triggered exactly when `n`
exceeds the previous reference entry count by more than 20% or falls below it
by more than 30% (not 20%), and `n` is above 100; otherwise the stats are
unchanged. -/
theorem c8_resize_characterization : ∀ (B gcm : Nat) (stats : BucketStats) (n : Nat),
    (resize_trigger B stats n = true ↔
      (((stats.bucket_size * B : Nat) : ℚ) * (1 + 20 / 100) < (n : ℚ) ∨
       (n : ℚ) < ((stats.bucket_size * B : Nat) : ℚ) * (1 - 30 / 100)) ∧ 100 < n) ∧
    (resize_trigger B stats n = true →
      update_bucket_size B gcm stats n =
        { bucket_size := max 1 (roundPos ((11 / 10 : ℚ) * (n : ℚ) / (B : ℚ)))
          ghost_bucket_size := max 1 (roundPos (((3 / 10 : ℚ) * (n : ℚ) +
            ((gcm * n : Nat) : ℚ)) / (B : ℚ)))
          ghost_start := max 1 (roundPos ((8 / 10 : ℚ) * (n : ℚ))) }) ∧
    (resize_trigger B stats n = false → update_bucket_size B gcm stats n = stats) := by
  intro B gcm stats n
  refine ⟨?_, ?_, ?_⟩
  · unfold resize_trigger
    rw [decide_eq_true_eq]
    have e1 : (1 + 20 / 100 : ℚ) = 12 / 10 := by norm_num
    have e2 : (1 - 30 / 100 : ℚ) = 7 / 10 := by norm_num
    rw [e1, e2]
  · intro h
    unfold update_bucket_size
    rw [h, if_pos rfl]
    simp only [BucketStats.mk.injEq]
    refine ⟨?_, ?_, ?_⟩ <;> rw [max_comm] <;> congr 1 <;> ring_nf
  · intro h
    unfold update_bucket_size
    rw [h]
    simp

theorem c8_resize_characterization_witness :
    resize_trigger 10 ⟨20, 1, 1⟩ 300 = true ∧
    update_bucket_size 10 2 ⟨20, 1, 1⟩ 300 = ⟨33, 69, 240⟩ ∧
    update_bucket_size 10 2 ⟨20, 1, 1⟩ 90 = ⟨20, 1, 1⟩ := by
  have htrig : resize_trigger 10 ⟨20, 1, 1⟩ 300 = true :=
    (c8_resize_characterization 10 2 ⟨20, 1, 1⟩ 300).1.mpr
      ⟨Or.inl (by norm_num), by norm_num⟩
  have hquiet : resize_trigger 10 ⟨20, 1, 1⟩ 90 = false := by
    unfold resize_trigger
    rw [decide_eq_false_iff_not]
    rintro ⟨_, h⟩
    norm_num at h
  refine ⟨htrig, ?_, (c8_resize_characterization 10 2 ⟨20, 1, 1⟩ 90).2.2 hquiet⟩
  refine ((c8_resize_characterization 10 2 ⟨20, 1, 1⟩ 300).2.1 htrig).trans ?_
  have h1 : (11 / 10 : ℚ) * (300 : Nat) / (10 : Nat) = 33 := by norm_num
  have h2 : ((3 / 10 : ℚ) * (300 : Nat) + ((2 * 300 : Nat) : ℚ)) / (10 : Nat) = 69 := by
    norm_num
  have h3 : (8 / 10 : ℚ) * (300 : Nat) = 240 := by norm_num
  rw [h1, h2, h3]
  simp only [BucketStats.mk.injEq, roundPos]
  norm_num [round_eq]
  decide

/-- C8 counterexample — with reference entry count `bucket_size * B = 200` and
`n = 150`, the entry count has dropped by 25% (more than the claimed 20%
trigger: `150 < 200 · 0.8`) and exceeds 100, yet the code does not resize,
because its downward trigger is `n < 0.7 · 200 = 140`. -/
theorem c8_counterexample :
    (⟨20, 1, 1⟩ : BucketStats).bucket_size * 10 = 200 ∧
    ((150 : ℚ) < (200 : ℚ) * (1 - 20 / 100) ∧ 100 < (150 : Nat)) ∧
    resize_trigger 10 ⟨20, 1, 1⟩ 150 = false ∧
    update_bucket_size 10 2 ⟨20, 1, 1⟩ 150 = ⟨20, 1, 1⟩ := by
  have hfalse : resize_trigger 10 ⟨20, 1, 1⟩ 150 = false := by
    unfold resize_trigger
    rw [decide_eq_false_iff_not]
    rintro ⟨h | h, _⟩ <;> norm_num at h
  refine ⟨rfl, ⟨by norm_num, by norm_num⟩, hfalse, ?_⟩
  unfold update_bucket_size
  rw [hfalse]
  simp

/-! ## Watermark handling (`HashAggExecutor::execute_inner`) -/

/-- A watermark message: the input column it is on and its value. -/
structure WatermarkMsg : Type where
  col_idx : Nat
  val : Nat
deriving DecidableEq

/-- `Watermark::with_idx`. -/
def with_idx (w : WatermarkMsg) (i : Nat) : WatermarkMsg :=
  { w with col_idx := i }

/-- Rust `vec[i]` over a vector of options (`None` out of bounds; real
executions index in bounds). -/
def optIdx {α : Type} : List (Option α) → Nat → Option α
  | [], _ => none
  | x :: _, 0 => x
  | _ :: rest, n + 1 => optIdx rest n

/-- The `group_key_invert_idx` table built in `execute_inner`: a vector of
length `input_len`, all `None`, then for each `(group_key_seq, group_key_idx)`
of the enumerated group-key indices, position `group_key_idx` is set to
`Some group_key_seq`. -/
def group_key_invert_idx (group_key_indices : List Nat) (input_len : Nat) :
    List (Option Nat) :=
  (group_key_indices.enum).foldl (fun arr p => arr.set p.2 (some p.1))
    (List.replicate input_len none)

/-- The `Message::Watermark` arm of `execute_inner`: look the column up in the
inverted index; on a group-key column, remember it as the window watermark if
it is the window column, and buffer it re-indexed to the group-key position;
otherwise leave everything unchanged. -/
def handle_watermark (gkii : List (Option Nat)) (window_col_idx : Nat)
    (buffered : List (Option WatermarkMsg)) (ww : Option Nat)
    (w : WatermarkMsg) : List (Option WatermarkMsg) × Option Nat :=
  match optIdx gkii w.col_idx with
  | some seq =>
    (buffered.set seq (some (with_idx w seq)),
     if w.col_idx = window_col_idx then some w.val else ww)
  | none => (buffered, ww)

/-- The watermark-forwarding step of the `Message::Barrier` arm: in
emit-on-window-close mode only the window-column buffer slot is taken and
yielded; otherwise every buffered watermark is taken and yielded in order.
Returns the yielded watermarks and the buffer afterwards. -/
def barrier_forwarded_watermarks (emit_on_window_close : Bool)
    (window_col_idx_in_group_key : Nat)
    (buffered : List (Option WatermarkMsg)) :
    List WatermarkMsg × List (Option WatermarkMsg) :=
  if emit_on_window_close then
    match optIdx buffered window_col_idx_in_group_key with
    | some w => ([w], buffered.set window_col_idx_in_group_key none)
    | none => ([], buffered)
  else
    (buffered.filterMap id, buffered.map (fun _ => none))

theorem optIdx_set_ne {α : Type} {i j : Nat} (h : i ≠ j) :
    ∀ (l : List (Option α)) (v : Option α), optIdx (l.set i v) j = optIdx l j := by
  induction i generalizing j with
  | zero =>
    intro l v
    cases l with
    | nil => rfl
    | cons x rest =>
      cases j with
      | zero => exact absurd rfl h
      | succ m => rfl
  | succ i ih =>
    intro l v
    cases l with
    | nil => rfl
    | cons x rest =>
      cases j with
      | zero => rfl
      | succ m => exact ih (fun hc => h (by rw [hc])) rest v

theorem optIdx_replicate {α : Type} :
    ∀ (n c : Nat), optIdx (List.replicate n (none : Option α)) c = none := by
  intro n
  induction n with
  | zero => intro c; rfl
  | succ m ih =>
    intro c
    cases c with
    | zero => rfl
    | succ c' => exact ih c'

theorem foldl_set_optIdx_not_mem {c : Nat} :
    ∀ (ps : List (Nat × Nat)) (arr : List (Option Nat)), c ∉ ps.map Prod.snd →
      optIdx (ps.foldl (fun a p => a.set p.2 (some p.1)) arr) c = optIdx arr c := by
  intro ps
  induction ps with
  | nil => intro arr _; rfl
  | cons p rest ih =>
    intro arr h
    simp only [List.map_cons, List.mem_cons] at h
    push_neg at h
    rw [List.foldl_cons, ih _ h.2, optIdx_set_ne (fun hc => h.1 hc.symm)]

/-- A column that is not a group-key column has no entry in the inverted
index. -/
theorem invert_idx_not_mem {gki : List Nat} {n c : Nat} (h : c ∉ gki) :
    optIdx (group_key_invert_idx gki n) c = none := by
  unfold group_key_invert_idx
  rw [foldl_set_optIdx_not_mem, optIdx_replicate]
  rw [List.enum_map_snd]
  exact h

/-- C10 (amended) — The operator drops input watermarks on non-group-key
columns (neither buffered nor yielded, and the window watermark is untouched);
a watermark on a group-key column is re-indexed to its group-key position and
buffered; at the next barrier, when `emit_on_window_close` is false every
buffered watermark is forwarded, while when `emit_on_window_close` is true
only the window-column slot is forwarded (other group-key watermarks stay
buffered and are not yielded). -/
theorem c10_watermark_scoping :
    (∀ (gki : List Nat) (n wci : Nat) (bw : List (Option WatermarkMsg))
        (ww : Option Nat) (w : WatermarkMsg), w.col_idx < n → w.col_idx ∉ gki →
      handle_watermark (group_key_invert_idx gki n) wci bw ww w = (bw, ww)) ∧
    (∀ (gkii : List (Option Nat)) (wci : Nat) (bw : List (Option WatermarkMsg))
        (ww : Option Nat) (w : WatermarkMsg) (seq : Nat),
      optIdx gkii w.col_idx = some seq →
      handle_watermark gkii wci bw ww w =
        (bw.set seq (some (with_idx w seq)),
         if w.col_idx = wci then some w.val else ww)) ∧
    (∀ (wcig : Nat) (bw : List (Option WatermarkMsg)),
      (barrier_forwarded_watermarks false wcig bw).1 = bw.filterMap id) ∧
    (∀ (wcig : Nat) (bw : List (Option WatermarkMsg)) (w : WatermarkMsg),
      optIdx bw wcig = some w →
      (barrier_forwarded_watermarks true wcig bw).1 = [w]) := by
  refine ⟨?_, ?_, ?_, ?_⟩
  · intro gki n wci bw ww w _ hnm
    unfold handle_watermark
    rw [invert_idx_not_mem hnm]
  · intro gkii wci bw ww w seq h
    unfold handle_watermark
    rw [h]
  · intro wcig bw
    rfl
  · intro wcig bw w h
    unfold barrier_forwarded_watermarks
    rw [h]
    rfl

/-- C10 counterexample — with group-key columns `[2, 0]` over a 3-column
input, window column 2 (group-key position 0), and `emit_on_window_close`
set: a watermark on group-key column 0 is re-indexed to position 1 and
buffered, yet the next barrier forwards nothing, refuting "forwarded at the
next barrier". -/
theorem c10_counterexample :
    handle_watermark (group_key_invert_idx [2, 0] 3) 2 [none, none] none
      ⟨0, 42⟩ = ([none, some ⟨1, 42⟩], none) ∧
    (barrier_forwarded_watermarks true 0 [none, some ⟨1, 42⟩]).1 = [] :=
  ⟨by decide, by decide⟩

theorem c10_watermark_scoping_witness :
    handle_watermark (group_key_invert_idx [2, 0] 3) 2 [none, none] none
      ⟨1, 7⟩ = ([none, none], none) ∧
    (barrier_forwarded_watermarks false 0 [none, some ⟨1, 42⟩]).1 = [⟨1, 42⟩] ∧
    (barrier_forwarded_watermarks true 0 [some ⟨0, 9⟩, some ⟨1, 42⟩]).1 = [⟨0, 9⟩] :=
  ⟨c10_watermark_scoping.1 [2, 0] 3 2 [none, none] none ⟨1, 7⟩ (by norm_num)
     (by decide),
   (c10_watermark_scoping.2.2.1 0 [none, some ⟨1, 42⟩]).trans (by decide),
   c10_watermark_scoping.2.2.2 0 [some ⟨0, 9⟩, some ⟨1, 42⟩] ⟨0, 9⟩ (by decide)⟩

end RW
